import Mathlib

/-!
# PDF color page analyzer — verification development

Shallow embedding of the core logic of the PDF color page analyzer
(`src/app.py` and `src/pdf_color_page_analyzer.py`):

* the per-page color classifier (colorspace gate, stride-30 byte sampling,
  `abs(r-g) > 5` threshold with short-circuit),
* the document scanner (page loop, page-number aggregation, progress bar,
  try/except failure handling),
* the page-range formatter `format_page_list`.

Pixel channel values are modelled as `Nat` (Python reads them from a `bytes`
buffer, so in the program they lie in `0..255`; none of the logic depends on
that bound, and the embedding is total over all of `Nat`).  The raster buffer
`pix.samples` is a flat `List Nat`.  `pix.colorspace` is `Option Nat` carrying
the channel count `n` (Python: `pix.colorspace and pix.colorspace.n >= 3`).
-/

namespace PdfColor

/-- The per-page verdict. -/
inductive Classification where
  | Color : Classification
  | Monochrome : Classification
deriving DecidableEq, Repr

/-- `abs(r - g)` on Python ints: channel values are nonnegative, the
subtraction is on ℤ and the absolute value is taken. -/
def absDiff (a b : Nat) : Nat :=
  ((a : Int) - (b : Int)).natAbs

/-- The loop-body test of `analyze_pdf`
(`if abs(r - g) > 5 or abs(r - b) > 5 or abs(g - b) > 5`). -/
def colorHit (r g b : Nat) : Bool :=
  decide (5 < absDiff r g) || decide (5 < absDiff r b) || decide (5 < absDiff g b)

/-- The sampling loop of `analyze_pdf`:
`for i in range(0, len(img_data), 3 * 10): if i + 2 < len(img_data): ...`,
returning the final value of `is_color` (`break` on the first hit).
`i` is the current loop counter; indexing `img_data[i]` is modelled with
`List.getD` (in range whenever it is reached, thanks to the bounds guard). -/
def sampleScan (img : List Nat) (i : Nat) : Bool :=
  if h : i < img.length then
    if i + 2 < img.length then
      if colorHit (img.getD i 0) (img.getD (i + 1) 0) (img.getD (i + 2) 0) then
        true
      else
        sampleScan img (i + 30)
    else
      sampleScan img (i + 30)
  else
    false
termination_by img.length - i
decreasing_by
  all_goals simp_wf
  all_goals omega

/-- The per-page classification logic of `analyze_pdf`:
`if pix.colorspace and pix.colorspace.n >= 3:` sample pixels, else the page
goes to `bw_pages`.  A page goes to `color_pages` exactly when the sampling
loop set `is_color`. -/
def classify (colorspace : Option Nat) (img : List Nat) : Classification :=
  match colorspace with
  | none => .Monochrome
  | some n =>
      if 3 ≤ n then
        if sampleScan img 0 then .Color else .Monochrome
      else
        .Monochrome

/-- One rendered page as the classifier sees it: `pix.colorspace` (channel
count, absent for degenerate pages) and `pix.samples`. -/
structure PageRaster where
  colorspace : Option Nat
  samples : List Nat
deriving DecidableEq, Repr

/-- Classify one rendered page. -/
def classifyPage (p : PageRaster) : Classification :=
  classify p.colorspace p.samples

/-! ## Characterisation of the sampling loop -/

theorem classify_none (img : List Nat) : classify none img = .Monochrome := rfl

theorem classify_some (n : Nat) (img : List Nat) :
    classify (some n) img =
      if 3 ≤ n then
        if sampleScan img 0 then Classification.Color else Classification.Monochrome
      else Classification.Monochrome := rfl

theorem sampleScan_eq_true_iff (img : List Nat) (i : Nat) :
    sampleScan img i = true ↔
      ∃ k, i + 30 * k + 2 < img.length ∧
        colorHit (img.getD (i + 30 * k) 0) (img.getD (i + 30 * k + 1) 0)
          (img.getD (i + 30 * k + 2) 0) = true := by
  induction i using sampleScan.induct with
  | img => exact img
  | case1 i h hguard hhit =>
      rw [sampleScan]
      simp only [dif_pos h, if_pos hguard, if_pos hhit]
      constructor
      · intro _
        exact ⟨0, by simpa using hguard, by simpa using hhit⟩
      · intro _; trivial
  | case2 i h hguard hhit ih =>
      rw [sampleScan]
      simp only [dif_pos h, if_pos hguard, if_neg hhit]
      rw [ih]
      constructor
      · rintro ⟨k, hk, hc⟩
        refine ⟨k + 1, by omega, ?_⟩
        have : i + 30 * (k + 1) = i + 30 + 30 * k := by ring
        simpa [this] using hc
      · rintro ⟨k, hk, hc⟩
        match k with
        | 0 =>
            exfalso
            apply hhit
            simpa using hc
        | k + 1 =>
            refine ⟨k, by omega, ?_⟩
            have : i + 30 + 30 * k = i + 30 * (k + 1) := by ring
            simpa [this] using hc
  | case3 i h hguard ih =>
      rw [sampleScan]
      simp only [dif_pos h, if_neg hguard]
      rw [ih]
      constructor
      · rintro ⟨k, hk, hc⟩
        refine ⟨k + 1, by omega, ?_⟩
        have : i + 30 * (k + 1) = i + 30 + 30 * k := by ring
        simpa [this] using hc
      · rintro ⟨k, hk, hc⟩
        match k with
        | 0 => exact absurd (by simpa using hk) hguard
        | k + 1 =>
            refine ⟨k, by omega, ?_⟩
            have : i + 30 + 30 * k = i + 30 * (k + 1) := by ring
            simpa [this] using hc
  | case4 i h =>
      rw [sampleScan]
      simp only [dif_neg h]
      constructor
      · intro hfalse; exact absurd hfalse (by simp)
      · rintro ⟨k, hk, _⟩
        exact absurd h (by push_neg; omega)

theorem sampleScan_zero_iff (img : List Nat) :
    sampleScan img 0 = true ↔
      ∃ k, 30 * k + 2 < img.length ∧
        colorHit (img.getD (30 * k) 0) (img.getD (30 * k + 1) 0)
          (img.getD (30 * k + 2) 0) = true := by
  have h := sampleScan_eq_true_iff img 0
  simpa using h

theorem classify_eq_Color_iff (n : Nat) (img : List Nat) (hn : 3 ≤ n) :
    classify (some n) img = .Color ↔
      ∃ k, 30 * k + 2 < img.length ∧
        colorHit (img.getD (30 * k) 0) (img.getD (30 * k + 1) 0)
          (img.getD (30 * k + 2) 0) = true := by
  rw [classify_some, if_pos hn]
  by_cases hs : sampleScan img 0 = true
  · rw [if_pos hs]
    constructor
    · intro _
      exact (sampleScan_zero_iff img).mp hs
    · intro _; rfl
  · rw [if_neg hs]
    constructor
    · intro hc; exact absurd hc (by decide)
    · rintro hk
      exact absurd ((sampleScan_zero_iff img).mpr hk) hs

/-! ## C1 — monochrome gate on the colorspace -/

/-- C1: if `colorSpace` is absent, or its channel count `n` is below 3, the
page is classified Monochrome regardless of the raster's pixel contents. -/
theorem classify_monochrome_of_low_channels (cs : Option Nat) (img : List Nat)
    (h : cs = none ∨ ∃ n, cs = some n ∧ n < 3) :
    classify cs img = .Monochrome := by
  rcases h with h | ⟨n, hcs, hn⟩
  · subst h; rfl
  · subst hcs
    rw [classify_some, if_neg (by omega)]

/-- Witness for C1: a raster full of vividly colored bytes is still
Monochrome under a 1-channel (grayscale) colorspace. -/
theorem classify_monochrome_of_low_channels_witness :
    ((some 1 : Option Nat) = none ∨ ∃ n, (some 1 : Option Nat) = some n ∧ n < 3) ∧
      classify (some 1) [200, 0, 0, 0, 200, 0] = .Monochrome :=
  ⟨Or.inr ⟨1, rfl, by omega⟩,
    classify_monochrome_of_low_channels (some 1) [200, 0, 0, 0, 200, 0]
      (Or.inr ⟨1, rfl, by omega⟩)⟩

/-! ## C10 — rasters shorter than 3 bytes -/

/-- C10: when the sample buffer holds fewer than 3 bytes, the bounds guard
`i + 2 < len` skips every sample, so classification is Monochrome without
error, whatever the colorspace. -/
theorem classify_monochrome_of_short_buffer (cs : Option Nat) (img : List Nat)
    (h : img.length < 3) :
    classify cs img = .Monochrome := by
  rcases cs with _ | n
  · rfl
  · rw [classify_some]
    rcases Nat.lt_or_ge n 3 with hn | hn
    · rw [if_neg (by omega)]
    · rw [if_pos hn]
      have hscan : sampleScan img 0 = false := by
        rw [sampleScan]
        rcases Nat.eq_zero_or_pos img.length with h0 | hpos
        · rw [dif_neg (by omega)]
        · rw [dif_pos (by omega), if_neg (by omega)]
          rw [sampleScan]
          rw [dif_neg (by omega)]
      rw [hscan]
      simp

/-- Witness for C10: a 2-byte buffer with a would-be color pair under an RGB
colorspace is still Monochrome. -/
theorem classify_monochrome_of_short_buffer_witness :
    ([255, 0] : List Nat).length < 3 ∧
      classify (some 3) [255, 0] = .Monochrome :=
  ⟨by decide, classify_monochrome_of_short_buffer (some 3) [255, 0] (by decide)⟩

/-! ## C2 — strict greater-than-5 threshold -/

/-- C2: the threshold is strictly greater-than 5: a sampled pixel whose three
pairwise absolute channel differences are all at most 5 does not trigger the
Color verdict, while any pairwise difference of 6 or more does; and a
triggering triple at any visited offset makes `classify` (with `n ≥ 3`)
return Color. -/
theorem threshold_strict_gt_five (n : Nat) (img : List Nat) (r g b : Nat)
    (hn : 3 ≤ n) :
    ((absDiff r g ≤ 5 ∧ absDiff r b ≤ 5 ∧ absDiff g b ≤ 5) →
        colorHit r g b = false) ∧
      ((6 ≤ absDiff r g ∨ 6 ≤ absDiff r b ∨ 6 ≤ absDiff g b) →
        colorHit r g b = true) ∧
      (∀ k, 30 * k + 2 < img.length →
        colorHit (img.getD (30 * k) 0) (img.getD (30 * k + 1) 0)
            (img.getD (30 * k + 2) 0) = true →
          classify (some n) img = .Color) := by
  refine ⟨?_, ?_, ?_⟩
  · rintro ⟨h1, h2, h3⟩
    unfold colorHit
    simp only [Bool.or_eq_false_iff, decide_eq_false_iff_not]
    omega
  · intro h
    unfold colorHit
    simp only [Bool.or_eq_true, decide_eq_true_eq]
    omega
  · intro k hk hc
    exact (classify_eq_Color_iff n img hn).mpr ⟨k, hk, hc⟩

/-- Witness for C2: at the boundary, a difference of exactly 5 does not
trigger, while 6 does, and a 6-difference first pixel turns a concrete
raster Color. -/
theorem threshold_strict_gt_five_witness :
    (3 ≤ 3) ∧
      (((absDiff 10 5 ≤ 5 ∧ absDiff 10 10 ≤ 5 ∧ absDiff 5 10 ≤ 5) →
          colorHit 10 5 10 = false) ∧
        ((6 ≤ absDiff 16 10 ∨ 6 ≤ absDiff 16 10 ∨ 6 ≤ absDiff 10 10) →
          colorHit 16 10 10 = true) ∧
        (∀ k, 30 * k + 2 < ([16, 10, 10] : List Nat).length →
          colorHit (([16, 10, 10] : List Nat).getD (30 * k) 0)
              (([16, 10, 10] : List Nat).getD (30 * k + 1) 0)
              (([16, 10, 10] : List Nat).getD (30 * k + 2) 0) = true →
            classify (some 3) [16, 10, 10] = .Color)) := by
  constructor
  · decide
  · have h := threshold_strict_gt_five 3 [16, 10, 10] 10 5 10 (by decide)
    have h' := threshold_strict_gt_five 3 [16, 10, 10] 16 10 10 (by decide)
    exact ⟨fun hle => h.1 hle, fun hge => h'.2.1 hge, h'.2.2⟩

/-! ## C4 — short-circuit on the first sampled pixel -/

theorem getD_eq_of_take_three_eq (l l' : List Nat) (k : Nat) (hk : k < 3)
    (h : l.take 3 = l'.take 3) : l.getD k 0 = l'.getD k 0 := by
  have h1 : l.getD k 0 = (l.take 3).getD k 0 := by
    rcases l with _ | ⟨a, _ | ⟨b, _ | ⟨c, rest⟩⟩⟩ <;>
      interval_cases k <;> simp [List.getD]
  have h2 : l'.getD k 0 = (l'.take 3).getD k 0 := by
    rcases l' with _ | ⟨a, _ | ⟨b, _ | ⟨c, rest⟩⟩⟩ <;>
      interval_cases k <;> simp [List.getD]
  rw [h1, h2, h]

/-- C4: if the first sampled pixel (byte offsets 0, 1, 2) already exceeds the
threshold, the page is Color, and the verdict depends on no byte beyond
offset 2: every raster agreeing with it on its first 3 bytes — whatever
arbitrary, even out-of-range, values follow them — is also Color. -/
theorem classify_short_circuit_first_pixel (n : Nat) (img : List Nat)
    (hn : 3 ≤ n) (hlen : 2 < img.length)
    (hhit : colorHit (img.getD 0 0) (img.getD 1 0) (img.getD 2 0) = true) :
    classify (some n) img = .Color ∧
      ∀ img' : List Nat, 2 < img'.length → img'.take 3 = img.take 3 →
        classify (some n) img' = .Color := by
  constructor
  · exact (classify_eq_Color_iff n img hn).mpr ⟨0, by simpa using hlen, by simpa using hhit⟩
  · intro img' hlen' htake
    refine (classify_eq_Color_iff n img' hn).mpr ⟨0, by simpa using hlen', ?_⟩
    have e0 := getD_eq_of_take_three_eq img' img 0 (by omega) htake
    have e1 := getD_eq_of_take_three_eq img' img 1 (by omega) htake
    have e2 := getD_eq_of_take_three_eq img' img 2 (by omega) htake
    simp only [Nat.mul_zero, Nat.zero_add]
    rw [e0, e1, e2]
    exact hhit

/-- Witness for C4: a first pixel `(30, 10, 10)` makes the page Color, and
a raster with the same first 3 bytes but wild trailing bytes is also Color. -/
theorem classify_short_circuit_first_pixel_witness :
    (3 ≤ 3 ∧ 2 < ([30, 10, 10, 999, 0] : List Nat).length ∧
        colorHit (([30, 10, 10, 999, 0] : List Nat).getD 0 0)
          (([30, 10, 10, 999, 0] : List Nat).getD 1 0)
          (([30, 10, 10, 999, 0] : List Nat).getD 2 0) = true) ∧
      classify (some 3) [30, 10, 10, 999, 0] = .Color ∧
        classify (some 3) [30, 10, 10, 123456, 7, 8, 9] = .Color := by
  refine ⟨⟨by decide, by decide, by decide⟩, ?_⟩
  have h := classify_short_circuit_first_pixel 3 [30, 10, 10, 999, 0]
    (by decide) (by decide) (by decide)
  exact ⟨h.1, h.2 [30, 10, 10, 123456, 7, 8, 9] (by decide) (by decide)⟩

/-! ## C3 — which offsets the sampling walk reads

The loop walks byte offsets `0, 30, 60, …` and reads the triple at
`i, i+1, i+2` exactly when `i + 2` is in bounds (this part of the claim is
proved below).  The claim additionally asserts that each sampled triple is
"every 10th pixel's leading 3 of its `n` channels" for every `n ≥ 3`; that
is true for `n = 3` (offset `30·k` is byte `0` of pixel `10·k`) but false
for `n = 4`, where the stride is byte-based and offset 30 falls in the
middle of pixel 7 — refuted below by comparing with a spec-faithful
pixel-aligned sampler. -/

/-- Channel `c` of pixel `p` in a raster whose pixels hold `n` interleaved
channel bytes (spec §3: "a flat sequence of unsigned 8-bit channel samples,
interleaved per pixel"). -/
def pixelChannel (n p c : Nat) (img : List Nat) : Nat :=
  img.getD (p * n + c) 0

/-- Modelled from the spec: a classifier that samples "every 10th pixel's
leading 3 of its `n` channels" — pixel `10·k` at byte offset `10·k·n`,
reading its channels 0, 1, 2 when they are in bounds — as claim C3 reads
the sampling. -/
def classifySpecPixelAligned (n : Nat) (img : List Nat) : Classification :=
  if 3 ≤ n then
    if (List.range img.length).any
        (fun k => decide (10 * k * n + 2 < img.length) &&
          colorHit (pixelChannel n (10 * k) 0 img) (pixelChannel n (10 * k) 1 img)
            (pixelChannel n (10 * k) 2 img)) then
      .Color
    else .Monochrome
  else .Monochrome

/-- A 36-byte raster, all zero except byte 31 = 100.  Under 4-channel pixels
its 9 pixels are `(0,0,0,0)` except pixel 7 = `(0,0,0,100)`: every pixel's
leading 3 channels are equal, yet the byte-stride walk reads offsets
30–32 = `(0,100,0)`. -/
def rasterC3 : List Nat :=
  List.replicate 31 0 ++ [100] ++ List.replicate 4 0

/-- Counterexample to C3 as stated: under a 4-channel colorspace, the code's
byte-stride walk reads the non-pixel-aligned triple at offsets 30–32 and
calls `rasterC3` Color, while sampling every 10th pixel's leading 3 of its
4 channels finds no chromatic pixel. -/
theorem stride_not_pixel_aligned_counterexample :
    classify (some 4) rasterC3 = .Color ∧
      classifySpecPixelAligned 4 rasterC3 = .Monochrome := by
  constructor
  · exact (classify_eq_Color_iff 4 rasterC3 (by decide)).mpr
      ⟨1, by decide, by decide⟩
  · decide

/-- C3 amended: for every raster with `n ≥ 3`, the walk reads exactly the
byte triples at offsets `30·k, 30·k+1, 30·k+2` for those `k` with
`30·k + 2` in bounds — the page is Color iff one of those triples exceeds
the threshold — and for `n = 3` (the case produced by `get_pixmap`) the
triple at offset `30·k` is precisely the leading 3 channels of every 10th
pixel, pixel `10·k`.  For `n > 3` the stride is byte-based, not
pixel-aligned (see the counterexample). -/
theorem sampling_offsets_characterized (n : Nat) (img : List Nat) (hn : 3 ≤ n) :
    (classify (some n) img = .Color ↔
        ∃ k, 30 * k + 2 < img.length ∧
          colorHit (img.getD (30 * k) 0) (img.getD (30 * k + 1) 0)
            (img.getD (30 * k + 2) 0) = true) ∧
      ∀ k c, c < 3 → img.getD (30 * k + c) 0 = pixelChannel 3 (10 * k) c img := by
  refine ⟨classify_eq_Color_iff n img hn, ?_⟩
  intro k c _
  unfold pixelChannel
  congr 1
  ring

/-- Witness for the amended C3, at `n = 3` on a raster whose second sampled
triple (offsets 30–32) is the only chromatic one. -/
theorem sampling_offsets_characterized_witness :
    (3 ≤ 3) ∧
      ((classify (some 3) rasterC3 = .Color ↔
          ∃ k, 30 * k + 2 < rasterC3.length ∧
            colorHit (rasterC3.getD (30 * k) 0) (rasterC3.getD (30 * k + 1) 0)
              (rasterC3.getD (30 * k + 2) 0) = true) ∧
        ∀ k c, c < 3 → rasterC3.getD (30 * k + c) 0 = pixelChannel 3 (10 * k) c rasterC3) :=
  ⟨by decide, sampling_offsets_characterized 3 rasterC3 (by decide)⟩

/-! ## The page-range formatter `format_page_list`

Python sorts the caller's list in place (`page_list.sort()`) and then walks
it building run renderings.  The embedding returns the pair of the formatted
string and the state of the caller's list after the call. -/

/-- `str(start)` for a run of one page, `f"{start}-{end}"` for a longer run. -/
def renderRun (s e : Nat) : String :=
  if s = e then toString s else toString s ++ "-" ++ toString e

/-- The `for i in range(1, len(page_list))` loop of `format_page_list`,
together with the trailing "add the last range" step: `s`/`e` are the
current `start`/`end`, `acc` is `result`. -/
def runsAux : Nat → Nat → List Nat → List String → List String
  | s, e, [], acc => acc ++ [renderRun s e]
  | s, e, x :: xs, acc =>
    if x = e + 1 then runsAux s x xs acc
    else runsAux x x xs (acc ++ [renderRun s e])

/-- `format_page_list`, with the post-call state of the caller's list as the
second component: the function returns early on an empty list and otherwise
sorts the caller's list in place before grouping runs. -/
def format_page_list_run (page_list : List Nat) : String × List Nat :=
  if page_list = [] then ("", page_list)
  else
    match List.insertionSort (· ≤ ·) page_list with
    | [] => ("", [])
    | x :: xs =>
        (String.intercalate ", " (runsAux x x xs []),
          List.insertionSort (· ≤ ·) page_list)

/-- The string returned by `format_page_list`. -/
def format_page_list (page_list : List Nat) : String :=
  (format_page_list_run page_list).1

/-! ### Spec-side formatter (for the refinement claim C5) -/

/-- Modelled from the spec (§4.3): the maximal runs of consecutive integers
of a sorted list, as `(first, last)` pairs — a successor element with a
difference of exactly 1 extends the current run. -/
def runsSpec : List Nat → List (Nat × Nat)
  | [] => []
  | x :: xs =>
    match runsSpec xs with
    | [] => [(x, x)]
    | (a, b) :: rest => if a = x + 1 then (x, b) :: rest else (x, x) :: (a, b) :: rest

/-- Modelled from the spec (§4.3): a run of length 1 is its single number, a
longer run is `"first-last"`. -/
def renderRunSpec (p : Nat × Nat) : String :=
  if p.1 = p.2 then toString p.1 else toString p.1 ++ "-" ++ toString p.2

/-- Modelled from the spec (§4.3): sort ascending, group maximal runs,
render each run, join with `", "`; empty input yields the empty string. -/
def format_spec (l : List Nat) : String :=
  String.intercalate ", " ((runsSpec (List.insertionSort (· ≤ ·) l)).map renderRunSpec)

/-- Prepending one element to a run decomposition: starts a new run or
extends the first one. -/
def mergeInto (s e : Nat) : List (Nat × Nat) → List (Nat × Nat)
  | [] => [(s, e)]
  | (a, b) :: rest => if a = e + 1 then (s, b) :: rest else (s, e) :: (a, b) :: rest

theorem runsSpec_cons (x : Nat) (xs : List Nat) :
    runsSpec (x :: xs) = mergeInto x x (runsSpec xs) := by
  rw [runsSpec]
  rcases runsSpec xs with _ | ⟨⟨a, b⟩, rest⟩ <;> rfl

theorem renderRunSpec_mk (s e : Nat) : renderRunSpec (s, e) = renderRun s e := rfl

theorem mergeInto_mergeInto (s e x : Nat) (rs : List (Nat × Nat)) :
    mergeInto s e (mergeInto x x rs) =
      if x = e + 1 then mergeInto s x rs else (s, e) :: mergeInto x x rs := by
  rcases rs with _ | ⟨⟨a, b⟩, rest⟩
  · rfl
  · simp only [mergeInto]
    by_cases hax : a = x + 1
    · rw [if_pos hax]
      simp only [mergeInto]
      rw [if_pos hax]
    · rw [if_neg hax]
      simp only [mergeInto]
      rw [if_neg hax]

theorem runsAux_eq_spec (xs : List Nat) :
    ∀ (s e : Nat) (acc : List String),
      runsAux s e xs acc = acc ++ (mergeInto s e (runsSpec xs)).map renderRunSpec := by
  induction xs with
  | nil =>
      intro s e acc
      simp [runsAux, runsSpec, mergeInto, renderRunSpec_mk]
  | cons x xs ih =>
      intro s e acc
      rw [runsAux, runsSpec_cons, mergeInto_mergeInto]
      by_cases hxe : x = e + 1
      · rw [if_pos hxe, if_pos hxe, ih]
      · rw [if_neg hxe, if_neg hxe, ih]
        simp [renderRunSpec_mk, List.append_assoc]

/-! ## C5 — the formatter refines the spec's sort/group/render/join -/

/-- C5: `format_page_list` returns exactly the string described by the spec:
sort ascending, group maximal runs of consecutive integers, render length-1
runs as a single number and longer runs as `"first-last"`, join with
`", "`; the empty input yields `""`; in particular
`format_page_list [1,2,3,5,7,8] = "1-3, 5, 7-8"`. -/
theorem format_page_list_eq_spec :
    (∀ l : List Nat, format_page_list l = format_spec l) ∧
      format_page_list [1, 2, 3, 5, 7, 8] = "1-3, 5, 7-8" ∧
      format_page_list [] = "" := by
  have hmain : ∀ l : List Nat, format_page_list l = format_spec l := by
    intro l
    unfold format_page_list format_page_list_run format_spec
    by_cases hl : l = []
    · subst hl
      simp only [if_pos rfl, List.insertionSort, runsSpec, List.map_nil]
      rfl
    · rw [if_neg hl]
      rcases hs : List.insertionSort (· ≤ ·) l with _ | ⟨x, xs⟩
      · exfalso
        apply hl
        have := List.perm_insertionSort (· ≤ ·) l
        rw [hs] at this
        exact (List.Perm.nil_eq this).symm
      · rw [runsSpec_cons]
        simp only
        rw [runsAux_eq_spec]
        simp
  exact ⟨hmain, by rw [hmain]; rfl, by rw [hmain]; rfl⟩

/-! ## C9 — purity claim: the call mutates the caller's list -/

/-- Counterexample to C9 as stated: the call is not side-effect free — on
input `[2, 1]` the caller's list is left as `[1, 2]` (sorted in place),
not unchanged. -/
theorem format_page_list_mutates_counterexample :
    format_page_list_run [2, 1] = ("1-2", [1, 2]) ∧ ([1, 2] : List Nat) ≠ [2, 1] := by
  constructor
  · rfl
  · decide

/-- C9 amended: `format_page_list` is deterministic and total, and its
result depends only on the multiset of input pages (it never fails and two
calls on inputs equal up to order return equal strings); but the call does
have a side effect: it leaves the caller's list sorted ascending — a
permutation of its former contents, not the identical list. -/
theorem format_page_list_deterministic_total (l l' : List Nat) (h : l.Perm l') :
    format_page_list l = format_page_list l' ∧
      ((format_page_list_run l).2).Perm l ∧
      ((format_page_list_run l).2).Sorted (· ≤ ·) := by
  have hsortEq : List.insertionSort (· ≤ ·) l = List.insertionSort (· ≤ ·) l' := by
    have hperm : (List.insertionSort (· ≤ ·) l).Perm (List.insertionSort (· ≤ ·) l') :=
      (List.perm_insertionSort (· ≤ ·) l).trans
        (h.trans (List.perm_insertionSort (· ≤ ·) l').symm)
    exact List.eq_of_perm_of_sorted hperm
      (List.sorted_insertionSort (· ≤ ·) l) (List.sorted_insertionSort (· ≤ ·) l')
  refine ⟨?_, ?_, ?_⟩
  · unfold format_page_list format_page_list_run
    by_cases hl : l = []
    · have hl' : l' = [] := by
        subst hl
        exact (List.Perm.nil_eq h).symm
      rw [if_pos hl, if_pos hl']
    · have hl' : l' ≠ [] := by
        intro hnil
        apply hl
        rw [hnil] at h
        exact List.Perm.eq_nil h
      rw [if_neg hl, if_neg hl', hsortEq]
  · unfold format_page_list_run
    by_cases hl : l = []
    · subst hl; simp
    · rw [if_neg hl]
      rcases hs : List.insertionSort (· ≤ ·) l with _ | ⟨x, xs⟩
      · exfalso
        apply hl
        have := List.perm_insertionSort (· ≤ ·) l
        rw [hs] at this
        exact (List.Perm.nil_eq this).symm
      · simp only
        rw [← hs]
        exact List.perm_insertionSort (· ≤ ·) l
  · unfold format_page_list_run
    by_cases hl : l = []
    · subst hl; simp
    · rw [if_neg hl]
      rcases hs : List.insertionSort (· ≤ ·) l with _ | ⟨x, xs⟩
      · simp
      · simp only
        rw [← hs]
        exact List.sorted_insertionSort (· ≤ ·) l

/-- Witness for the amended C9 on two orderings of `{1, 2, 3}`. -/
theorem format_page_list_deterministic_total_witness :
    ([3, 1, 2] : List Nat).Perm [2, 3, 1] ∧
      (format_page_list [3, 1, 2] = format_page_list [2, 3, 1] ∧
        ((format_page_list_run [3, 1, 2]).2).Perm [3, 1, 2] ∧
        ((format_page_list_run [3, 1, 2]).2).Sorted (· ≤ ·)) :=
  ⟨by decide, format_page_list_deterministic_total [3, 1, 2] [2, 3, 1] (by decide)⟩

/-! ## The document scanner `analyze_pdf`

`analyze_pdf` loads each page in ascending index order, classifies it and
appends `page_num + 1` to `color_pages` or `bw_pages`.  The whole body sits
in a `try`; on any exception the error is reported (`st.error` /
`messagebox.showerror`) and `([], [], 0)` is returned.  Rendering a page is
the fallible step, so a document is modelled as the outcome of `fitz.open`
(`Except`) holding one `RenderOutcome` per page. -/

/-- One page of an opened document: either its rendered raster or the
exception message raised while loading/rendering it. -/
inductive RenderOutcome where
  | ok : PageRaster → RenderOutcome
  | fail : String → RenderOutcome
deriving DecidableEq, Repr

/-- The page loop of `analyze_pdf`: classify each rendered page, appending
`page_num + 1` (`idx` is the number of pages before the current one) to
the color or the monochrome list; the first rendering exception aborts the
loop. -/
def scanPagesE : List RenderOutcome → Nat → Except String (List Nat × List Nat)
  | [], _ => .ok ([], [])
  | .fail e :: _, _ => .error e
  | .ok p :: rest, idx =>
    match scanPagesE rest (idx + 1) with
    | .error e => .error e
    | .ok (c, b) =>
        if classifyPage p = .Color then .ok ((idx + 1) :: c, b)
        else .ok (c, (idx + 1) :: b)

/-- `analyze_pdf` with its try/except: on success it returns
`(color_pages, bw_pages, total_pages)` and reports nothing; on any failure
opening or rendering it reports the exception message to the caller and
returns `([], [], 0)`. -/
def analyze_pdf_run (opened : Except String (List RenderOutcome)) :
    (List Nat × List Nat × Nat) × Option String :=
  match opened with
  | .error e => (([], [], 0), some e)
  | .ok pages =>
    match scanPagesE pages 0 with
    | .error e => (([], [], 0), some e)
    | .ok (c, b) => ((c, b, pages.length), none)

theorem scanPagesE_ok_partition (pages : List RenderOutcome) :
    ∀ (idx : Nat) (c b : List Nat), scanPagesE pages idx = .ok (c, b) →
      c.length + b.length = pages.length ∧
        (∀ k, (k ∈ c ∨ k ∈ b) ↔ (idx + 1 ≤ k ∧ k ≤ idx + pages.length)) ∧
        (∀ k, k ∈ c → k ∉ b) := by
  induction pages with
  | nil =>
      intro idx c b h
      simp only [scanPagesE, Except.ok.injEq, Prod.mk.injEq] at h
      obtain ⟨hc, hb⟩ := h
      subst hc; subst hb
      refine ⟨rfl, ?_, ?_⟩
      · intro k
        simp only [List.not_mem_nil, or_self, List.length_nil, false_iff]
        omega
      · intro k hk
        exact absurd hk (List.not_mem_nil k)
  | cons p rest ih =>
      intro idx c b h
      cases p with
      | fail e =>
          simp only [scanPagesE] at h
          exact Except.noConfusion h
      | ok pr =>
          rw [scanPagesE] at h
          rcases hrec : scanPagesE rest (idx + 1) with e | ⟨c', b'⟩
          · rw [hrec] at h
            exact Except.noConfusion h
          · rw [hrec] at h
            simp only at h
            obtain ⟨hl, hm, hd⟩ := ih (idx + 1) c' b' hrec
            have hsub : ∀ k, k ∈ c' ∨ k ∈ b' → idx + 2 ≤ k := by
              intro k hk
              have := (hm k).mp hk
              omega
            by_cases hcol : classifyPage pr = .Color
            · rw [if_pos hcol] at h
              simp only [Except.ok.injEq, Prod.mk.injEq] at h
              obtain ⟨hc, hb⟩ := h
              subst hc; subst hb
              refine ⟨?_, ?_, ?_⟩
              · simp only [List.length_cons]
                omega
              · intro k
                simp only [List.mem_cons, List.length_cons]
                constructor
                · rintro (⟨hk | hk⟩ | hk)
                  · omega
                  · have := (hm k).mp (Or.inl hk); omega
                  · have := (hm k).mp (Or.inr hk); omega
                · intro hk
                  by_cases hke : k = idx + 1
                  · exact Or.inl (Or.inl hke)
                  · have := (hm k).mpr (by omega)
                    rcases this with hc' | hb'
                    · exact Or.inl (Or.inr hc')
                    · exact Or.inr hb'
              · intro k hk hkb
                rcases List.mem_cons.mp hk with hke | hkc
                · have := hsub k (Or.inr hkb)
                  omega
                · exact hd k hkc hkb
            · rw [if_neg hcol] at h
              simp only [Except.ok.injEq, Prod.mk.injEq] at h
              obtain ⟨hc, hb⟩ := h
              subst hc; subst hb
              refine ⟨?_, ?_, ?_⟩
              · simp only [List.length_cons]
                omega
              · intro k
                simp only [List.mem_cons, List.length_cons]
                constructor
                · rintro (hk | hk | hk)
                  · have := (hm k).mp (Or.inl hk); omega
                  · omega
                  · have := (hm k).mp (Or.inr hk); omega
                · intro hk
                  by_cases hke : k = idx + 1
                  · exact Or.inr (Or.inl hke)
                  · have := (hm k).mpr (by omega)
                    rcases this with hc' | hb'
                    · exact Or.inl hc'
                    · exact Or.inr (Or.inr hb')
              · intro k hk hkb
                rcases List.mem_cons.mp hkb with hke | hkb'
                · have := hsub k (Or.inl hk)
                  omega
                · exact hd k hk hkb'

/-! ## C6 — color and monochrome pages partition the document -/

/-- C6: on a successfully scanned document, `color_pages` and `bw_pages`
exactly partition `{1, …, totalPages}`: a page number is in one of the two
lists iff it lies in `[1, totalPages]`, the lists are disjoint, and their
lengths sum to `totalPages = ` the page count. -/
theorem scan_partitions_pages (pages : List RenderOutcome) (c b : List Nat) (t : Nat)
    (h : analyze_pdf_run (.ok pages) = ((c, b, t), none)) :
    t = pages.length ∧
      (∀ k, (k ∈ c ∨ k ∈ b) ↔ (1 ≤ k ∧ k ≤ t)) ∧
      (∀ k, ¬(k ∈ c ∧ k ∈ b)) ∧
      c.length + b.length = t := by
  rw [analyze_pdf_run] at h
  rcases hrec : scanPagesE pages 0 with e | ⟨c', b'⟩
  · rw [hrec] at h
    simp only [Prod.mk.injEq] at h
    exact absurd h.2 (by simp)
  · rw [hrec] at h
    simp only [Prod.mk.injEq] at h
    obtain ⟨⟨hc, hb, ht⟩, -⟩ := h
    subst hc; subst hb; subst ht
    obtain ⟨hl, hm, hd⟩ := scanPagesE_ok_partition pages 0 c' b' hrec
    refine ⟨rfl, ?_, ?_, hl⟩
    · intro k
      rw [hm k]
      omega
    · intro k hk
      exact hd k hk.1 hk.2

/-- A 2-page document for the C6 witness: an RGB page with a chromatic
first pixel, then a grayscale page. -/
def pagesRgbGray : List RenderOutcome :=
  [.ok ⟨some 3, [16, 10, 10]⟩, .ok ⟨some 1, [5]⟩]

theorem pagesRgbGray_run :
    analyze_pdf_run (.ok pagesRgbGray) = (([1], [2], 2), none) := by
  have h1 : classifyPage ⟨some 3, [16, 10, 10]⟩ = .Color :=
    (classify_eq_Color_iff 3 [16, 10, 10] (by decide)).mpr ⟨0, by decide, by decide⟩
  have h2 : classifyPage ⟨some 1, [5]⟩ = .Monochrome := rfl
  have e0 : scanPagesE [] 2 = .ok ([], []) := rfl
  have e1 : scanPagesE [.ok ⟨some 1, [5]⟩] 1 = .ok ([], [2]) := rfl
  have e2 : scanPagesE pagesRgbGray 0 = .ok ([1], [2]) := by
    rw [pagesRgbGray, scanPagesE]
    rw [show (0 : Nat) + 1 = 1 from rfl, e1, h1]
    rfl
  rw [analyze_pdf_run, e2]
  rfl

/-- Witness for C6 on the 2-page document: pages `{1}` (color) and `{2}`
(monochrome) partition `{1, 2}`. -/
theorem scan_partitions_pages_witness :
    analyze_pdf_run (.ok pagesRgbGray) = (([1], [2], 2), none) ∧
      (2 = pagesRgbGray.length ∧
        (∀ k, ((k ∈ ([1] : List Nat)) ∨ k ∈ ([2] : List Nat)) ↔ (1 ≤ k ∧ k ≤ 2)) ∧
        (∀ k, ¬(k ∈ ([1] : List Nat) ∧ k ∈ ([2] : List Nat))) ∧
        ([1] : List Nat).length + ([2] : List Nat).length = 2) :=
  ⟨pagesRgbGray_run, scan_partitions_pages pagesRgbGray [1] [2] 2 pagesRgbGray_run⟩

/-! ## C7 — failures abort the scan and return the empty result -/

theorem scanPagesE_error_of_fail_mem (pages : List RenderOutcome) :
    ∀ (idx : Nat) (e : String), RenderOutcome.fail e ∈ pages →
      ∃ e', scanPagesE pages idx = .error e' := by
  induction pages with
  | nil =>
      intro idx e he
      exact absurd he (List.not_mem_nil _)
  | cons p rest ih =>
      intro idx e he
      cases p with
      | fail e0 => exact ⟨e0, rfl⟩
      | ok pr =>
          have he' : RenderOutcome.fail e ∈ rest := by
            rcases List.mem_cons.mp he with hh | ht
            · exact absurd hh (by simp)
            · exact ht
          obtain ⟨e', he''⟩ := ih (idx + 1) e he'
          refine ⟨e', ?_⟩
          rw [scanPagesE, he'']

/-- C7: on any failure opening the document or rendering any page, the scan
aborts, the failure is reported to the caller, and the result is empty
(`totalPages = 0`, both page lists empty) — no partial results from pages
classified before the failure are returned. -/
theorem scan_failure_returns_empty (opened : Except String (List RenderOutcome))
    (h : (∃ e, opened = .error e) ∨
      ∃ pages e, opened = .ok pages ∧ RenderOutcome.fail e ∈ pages) :
    ∃ e', analyze_pdf_run opened = (([], [], 0), some e') := by
  rcases h with ⟨e, he⟩ | ⟨pages, e, hok, hmem⟩
  · subst he
    exact ⟨e, rfl⟩
  · subst hok
    obtain ⟨e', he'⟩ := scanPagesE_error_of_fail_mem pages 0 e hmem
    refine ⟨e', ?_⟩
    rw [analyze_pdf_run, he']

/-- A document whose first page is a color page and whose second page fails
to render. -/
def pagesColorThenFail : List RenderOutcome :=
  [.ok ⟨some 3, [30, 10, 10]⟩, .fail "render error"]

/-- Witness for C7: even though page 1 would classify Color, the rendering
failure at page 2 yields the empty result with the failure reported — no
partial result. -/
theorem scan_failure_returns_empty_witness :
    ((∃ e, (Except.ok pagesColorThenFail : Except String (List RenderOutcome)) =
          .error e) ∨
      ∃ pages e, (Except.ok pagesColorThenFail : Except String (List RenderOutcome)) =
          .ok pages ∧ RenderOutcome.fail e ∈ pages) ∧
      ∃ e', analyze_pdf_run (.ok pagesColorThenFail) = (([], [], 0), some e') :=
  ⟨Or.inr ⟨pagesColorThenFail, "render error", rfl, by simp [pagesColorThenFail]⟩,
    scan_failure_returns_empty (.ok pagesColorThenFail)
      (Or.inr ⟨pagesColorThenFail, "render error", rfl, by simp [pagesColorThenFail]⟩)⟩

/-! ## C8 — progress reporting order (src/app.py)

`app.py` updates the progress bar at the top of each loop iteration —
`progress_bar.progress((page_num + 1) / total_pages)` — and only then calls
`doc.load_page` / `get_pixmap` and classifies the page.  The loop is
modelled as the sequence of its observable events; a progress event records
the numerator `page_num + 1` (the completion count) and the denominator
`total_pages` of the reported fraction. -/

/-- An observable event of the scan loop. -/
inductive Event where
  | progress : Nat → Nat → Event
  | classified : Nat → Classification → Event
deriving DecidableEq, Repr

/-- The body of `for page_num in range(total_pages)` in `app.py`'s
`analyze_pdf`, as an event trace: first the progress update for the current
page, then that page's classification. -/
def scanTrace : List PageRaster → Nat → Nat → List Event
  | [], _, _ => []
  | p :: rest, idx, total =>
    Event.progress (idx + 1) total ::
      Event.classified (idx + 1) (classifyPage p) ::
        scanTrace rest (idx + 1) total

/-- The event trace of a successful `analyze_pdf` scan. -/
def analyzeTrace (doc : List PageRaster) : List Event :=
  scanTrace doc 0 doc.length

/-- The completion count carried by a progress event. -/
def progressCount : Event → Option Nat
  | .progress c _ => some c
  | .classified _ _ => none

/-- Decides the claim "each progress invocation happens only after that
page's classification has completed": walk the trace keeping the pages
classified so far; every progress event's completion count must already be
among them. -/
def progressAfterClassifyCheck : List Event → List Nat → Bool
  | [], _ => true
  | .classified k _ :: rest, done => progressAfterClassifyCheck rest (k :: done)
  | .progress c _ :: rest, done => done.contains c && progressAfterClassifyCheck rest done

/-- Counterexample to C8 as stated: on a 1-page document the trace is
`[progress 1 1, classified 1 …]` — the progress invocation for page 1
happens before page 1 is rendered and classified, so the
progress-after-classification check fails. -/
theorem progress_before_classification_counterexample :
    analyzeTrace [⟨none, []⟩] =
        [Event.progress 1 1, Event.classified 1 .Monochrome] ∧
      progressAfterClassifyCheck (analyzeTrace [⟨none, []⟩]) [] = false :=
  ⟨rfl, rfl⟩

theorem scanTrace_eq_join (doc : List PageRaster) :
    ∀ (idx total : Nat),
      scanTrace doc idx total =
        ((List.range doc.length).map fun i =>
          [Event.progress (idx + i + 1) total,
            Event.classified (idx + i + 1) (classifyPage (doc.getD i ⟨none, []⟩))]).flatten := by
  induction doc with
  | nil =>
      intro idx total
      rfl
  | cons p rest ih =>
      intro idx total
      rw [scanTrace, ih (idx + 1) total]
      simp only [List.length_cons, List.range_succ_eq_map, List.map_cons, List.map_map,
        List.flatten_cons, List.getD_cons_zero, Nat.add_zero, List.cons_append,
        List.nil_append]
      congr 1
      congr 1
      congr 1
      apply List.map_congr_left
      intro i _
      simp only [Function.comp_apply, Nat.succ_eq_add_one, List.getD_cons_succ]
      have h : idx + 1 + i + 1 = idx + (i + 1) + 1 := by omega
      rw [h]

theorem scanTrace_progress_counts (doc : List PageRaster) :
    ∀ (idx total : Nat),
      (scanTrace doc idx total).filterMap progressCount =
        (List.range doc.length).map fun i => idx + i + 1 := by
  induction doc with
  | nil =>
      intro idx total
      rfl
  | cons p rest ih =>
      intro idx total
      rw [scanTrace]
      simp only [List.filterMap_cons, progressCount]
      rw [ih (idx + 1) total]
      simp only [List.length_cons, List.range_succ_eq_map, List.map_cons, List.map_map,
        Nat.add_zero]
      congr 1
      apply List.map_congr_left
      intro i _
      simp only [Function.comp_apply, Nat.succ_eq_add_one]
      omega

/-- C8 amended: the progress callback is invoked exactly once per page, with
completion counts `1, 2, …, totalPages` in strictly increasing order — but
each invocation happens at the top of the page's loop iteration,
immediately *before* that page is rendered and classified, not after: the
trace is exactly `progress (i+1) total` followed by `classified (i+1) …`
for each page index `i` in order. -/
theorem progress_once_per_page_before_classification (doc : List PageRaster) :
    analyzeTrace doc =
        ((List.range doc.length).map fun i =>
          [Event.progress (i + 1) doc.length,
            Event.classified (i + 1) (classifyPage (doc.getD i ⟨none, []⟩))]).flatten ∧
      (analyzeTrace doc).filterMap progressCount =
        (List.range doc.length).map fun i => i + 1 := by
  constructor
  · rw [analyzeTrace, scanTrace_eq_join doc 0 doc.length]
    congr 1
    apply List.map_congr_left
    intro i _
    simp only [Nat.zero_add]
  · rw [analyzeTrace, scanTrace_progress_counts doc 0 doc.length]
    apply List.map_congr_left
    intro i _
    simp only [Nat.zero_add]

end PdfColor
